import Mathlib

/-!
# Verification of the stm8dce dead-code-elimination tool

A shallow embedding of `src/stm8dce/stm8dce.py` (SDCC STM8 dead code
elimination).  Lines of assembly text are modelled as `List Char`; the
Python string operations used by the tool (`strip`, `split`,
`startswith`, `endswith`, indexing) are reproduced below.  Python
functions that can raise an uncaught exception (IndexError, TypeError)
are modelled with `Except`/`Option`, where the error value marks the
crash.  Recursion whose depth is bounded only by Python's recursion
limit is modelled with an explicit fuel parameter; `none` means the
computation exceeds every finite depth bound.
-/

set_option autoImplicit false

namespace Stm8dce

/-! ## Python string primitives -/

/-- The characters Python `str.strip()` removes. -/
def pySpace (c : Char) : Bool :=
  c = ' ' || c = '\t' || c = '\n' || c = '\r' || c = '\x0b' || c = '\x0c'

/-- Python `s.strip()`: drop leading and trailing whitespace. -/
def pyStrip (s : List Char) : List Char :=
  ((s.dropWhile pySpace).reverse.dropWhile pySpace).reverse

/-- First occurrence split: `some (before, after)` when `sep` occurs in `s`. -/
def splitOnce (sep : List Char) : List Char → Option (List Char × List Char)
  | [] => none
  | c :: rest =>
    if sep.isPrefixOf (c :: rest) then some ([], (c :: rest).drop sep.length)
    else (splitOnce sep rest).map fun p => (c :: p.1, p.2)

/-- Python `s.split(sep)` for a non-empty `sep`, with a fuel bound
(`s.length + 1` always suffices for non-empty separators). -/
def pySplitFuel (sep : List Char) : Nat → List Char → List (List Char)
  | 0, s => [s]
  | fuel + 1, s =>
    match splitOnce sep s with
    | none => [s]
    | some (b, a) => b :: pySplitFuel sep fuel a

/-- Python `s.split(sep)`. -/
def pySplit (sep s : List Char) : List (List Char) :=
  pySplitFuel sep (s.length + 1) s

/-- Python `sub in s` (substring containment). -/
def pyContains (sub s : List Char) : Bool :=
  (splitOnce sub s).isSome

/-- Python `s.endswith(t)` for a single-character `t`. -/
def endsWithChar (c : Char) (s : List Char) : Bool :=
  s.getLast? = some c

/-! ## Line classifiers (section "Pattern Matching" of the source)

Each classifier takes a raw line.  Classifiers that can raise an
IndexError in the source return `Except Unit _`, `.error ()` marking the
raised exception. -/

/-- `remove_comments(line)`: `line.split(";")[0].strip()`. -/
def remove_comments (line : List Char) : List Char :=
  pyStrip ((pySplit ([';']) line).headD [])

/-- `is_comment(line)`: `line.strip().startswith(";")`. -/
def is_comment (line : List Char) : Bool :=
  ([';']).isPrefixOf (pyStrip line)

/-- `is_function_label(line)`.  After comment stripping, a line ending in
`:` whose second-to-last character is not `$` yields the label text.
The source indexes `sline[-2]`, which raises IndexError when the
stripped line is exactly `":"`. -/
def is_function_label (line : List Char) : Except Unit (Option (List Char)) :=
  let sline := pyStrip line
  if is_comment sline then .ok none
  else
    let s := remove_comments sline
    if endsWithChar ':' s then
      if s.length < 2 then .error ()
      else if s.getD (s.length - 2) ' ' ≠ '$' then .ok (some s.dropLast)
      else .ok none
    else .ok none

/-- `is_constant_label(line)` delegates to `is_function_label`. -/
def is_constant_label (line : List Char) : Except Unit (Option (List Char)) :=
  is_function_label line

/-- `is_call(line)`: a `call` operand, or a `jp` operand that is a valid
symbol.  The source evaluates `label[0]` on the `jp` branch, which
raises IndexError when the operand is empty. -/
def is_call (line : List Char) : Except Unit (Option (List Char)) :=
  let sline := remove_comments (pyStrip line)
  if (("call").toList).isPrefixOf sline then
    .ok (some (pyStrip ((pySplit (("call").toList) sline).getD 1 [])))
  else if (("jp").toList).isPrefixOf sline then
    let label := pyStrip ((pySplit (("jp").toList) sline).getD 1 [])
    match label with
    | [] => .error ()
    | c :: _ =>
      if c = '_' || c.isAlpha then
        if label.all (fun ch => ch.isAlphanum || ch = '_') then .ok (some label)
        else .ok none
      else .ok none
  else .ok none

/-- `is_iret(line)`: the comment-stripped line is exactly `iret`. -/
def is_iret (line : List Char) : Bool :=
  remove_comments (pyStrip line) = ("iret").toList

/-- `is_area(line)`: returns the text after `.area`. -/
def is_area (line : List Char) : Option (List Char) :=
  let sline := remove_comments (pyStrip line)
  if ((".area").toList).isPrefixOf sline then
    some (pyStrip ((pySplit ((".area").toList) sline).getD 1 []))
  else none

/-- `is_global_defs(line)`: returns the text after `.globl`. -/
def is_global_defs (line : List Char) : Option (List Char) :=
  let sline := remove_comments (pyStrip line)
  if ((".globl").toList).isPrefixOf sline then
    some (pyStrip ((pySplit ((".globl").toList) sline).getD 1 []))
  else none

/-- `is_int_def(line)`: returns the text after `int`. -/
def is_int_def (line : List Char) : Option (List Char) :=
  let sline := remove_comments (pyStrip line)
  if (("int").toList).isPrefixOf sline then
    some (pyStrip ((pySplit (("int").toList) sline).getD 1 []))
  else none

/-- The final loop of `is_load_src_label`: return the suffix starting at
the first alphanumeric-or-underscore character, if any. -/
def firstIdentSuffix : List Char → Option (List Char)
  | [] => none
  | c :: rest =>
    if c.isAlphanum || c = '_' then some (c :: rest)
    else firstIdentSuffix rest

/-- `is_load_src_label(line)`: an `ld`/`ldw`/`ldf` line with a `,` whose
source operand contains `+`; the returned label is the left-hand side of
the first `+`, stripped of leading non-identifier characters. -/
def is_load_src_label (line : List Char) : Option (List Char) :=
  let sline := remove_comments (pyStrip line)
  if !((("ld").toList).isPrefixOf sline || (("ldw").toList).isPrefixOf sline
       || (("ldf").toList).isPrefixOf sline) then none
  else if !pyContains ([',']) sline then none
  else
    let src := pyStrip ((pySplit ([',']) sline).getD 1 [])
    if !pyContains (['+']) src then none
    else firstIdentSuffix (pyStrip ((pySplit (['+']) src).headD []))

/-- Python truthiness of an optional string: `None` and `""` are falsy. -/
def otruthy : Option (List Char) → Bool
  | some (_ :: _) => true
  | _ => false

/-! ## Data model (classes `GlobalDef`, `IntDef`, `Function`, `Constant`)

Python compares these objects by identity; the embedding therefore
refers to functions and constants by their index in the global list
built during parsing, never by structural equality. -/

/-- `GlobalDef`: a `.globl` declaration. -/
structure GlobalDef where
  path : List Char
  name : List Char
  line : Nat
deriving DecidableEq, Repr

/-- `IntDef`: an interrupt-vector entry (`int NAME`). -/
structure IntDef where
  path : List Char
  name : List Char
  line : Nat
deriving DecidableEq, Repr

/-- The parse-time fields of class `Function`.  `end_line` starts as
`None` and is only assigned when the terminating label or section
directive is pushed back; the attribute `isr` is the one
`parse_function` assigns on seeing `iret`. -/
structure PFunc where
  path : List Char
  name : List Char
  calls_str : List (List Char)
  mem_loads_str : List (List Char)
  start_line : Nat
  end_line : Option Nat
  isr : Bool
  empty : Bool
deriving DecidableEq, Repr

/-- The parse-time fields of class `Constant`. -/
structure PConst where
  path : List Char
  name : List Char
  start_line : Nat
  end_line : Option Nat
deriving DecidableEq, Repr

/-- `Function.__init__`: all lists empty, `end_line = None`,
`empty = True`.  (`isr` is not assigned in `__init__`; it is only ever
read after `parse_function` may have set it, so `false` stands for
"unset".) -/
def initFunc (path name : List Char) (start_line : Nat) : PFunc :=
  { path := path, name := name, calls_str := [], mem_loads_str := [],
    start_line := start_line, end_line := none, isr := false, empty := true }

/-! ## Parsing

`FileIterator` state is the pair of the 0-based position `idx` of the
next unread line (Python `fileit.index`) and the list `rest` of unread
lines.  `next` consumes the head of `rest` and increments `idx`;
`prev` is realised by returning the un-consumed tail.  A parse error
(`.error ()`) marks an exception raised by a classifier. -/

/-- The body loop of `parse_function`.  Branch order follows the
source: comment, `iret` (which does NOT clear the empty flag), function
label / area directive (push back, set `end_line`), clear the empty
flag, call, label load.  At end-of-input the loop breaks without
assigning `end_line`. -/
def pfLoop (idx : Nat) (rest : List (List Char)) (f : PFunc) :
    Except Unit (PFunc × Nat × List (List Char)) :=
  match rest with
  | [] => .ok (f, idx, [])
  | line :: rest' =>
    if is_comment line then pfLoop (idx + 1) rest' f
    else if is_iret line then pfLoop (idx + 1) rest' { f with isr := true }
    else do
      let flabel ← is_function_label line
      if otruthy flabel || otruthy (is_area line) then
        .ok ({ f with end_line := some idx }, idx, line :: rest')
      else
        let f := { f with empty := false }
        let call ← is_call line
        if otruthy call && !(f.calls_str.contains (call.getD [])) then
          pfLoop (idx + 1) rest' { f with calls_str := f.calls_str ++ [call.getD []] }
        else
          let load := is_load_src_label line
          if otruthy load && !(f.mem_loads_str.contains (load.getD [])) then
            pfLoop (idx + 1) rest'
              { f with mem_loads_str := f.mem_loads_str ++ [load.getD []] }
          else pfLoop (idx + 1) rest' f

/-- `parse_function(fileit, label)`: called with the label line already
consumed, so `fileit.index` (= `idx`) is the 1-based number of the
label line, recorded as `start_line`. -/
def parse_function (path label : List Char) (idx : Nat) (rest : List (List Char)) :
    Except Unit (PFunc × Nat × List (List Char)) :=
  pfLoop idx rest (initFunc path label idx)

/-- The body loop of `parse_constant`: like `pfLoop` but with no body
classification beyond boundary detection.  The same end-of-input path
leaves `end_line` unassigned. -/
def pcLoop (idx : Nat) (rest : List (List Char)) (c : PConst) :
    Except Unit (PConst × Nat × List (List Char)) :=
  match rest with
  | [] => .ok (c, idx, [])
  | line :: rest' =>
    if is_comment line then pcLoop (idx + 1) rest' c
    else do
      let clabel ← is_constant_label line
      if otruthy clabel || otruthy (is_area line) then
        .ok ({ c with end_line := some idx }, idx, line :: rest')
      else pcLoop (idx + 1) rest' c

/-- `parse_constant(fileit, label)`. -/
def parse_constant (path label : List Char) (idx : Nat) (rest : List (List Char)) :
    Except Unit (PConst × Nat × List (List Char)) :=
  pcLoop idx rest { path := path, name := label, start_line := idx, end_line := none }

/-- `parse_code_section(fileit)`: repeatedly read lines; an area
directive is pushed back and ends the section; a function label starts
a nested `parse_function`.  `fuel` bounds the number of loop
iterations; each iteration consumes one line, so any fuel above the
number of remaining lines computes the function exactly. -/
def parse_code_section (path : List Char) :
    Nat → Nat → List (List Char) → Except Unit (List PFunc × Nat × List (List Char))
  | 0, _, _ => .error ()
  | _ + 1, idx, [] => .ok ([], idx, [])
  | fuel + 1, idx, line :: rest => do
    if otruthy (is_area line) then .ok ([], idx, line :: rest)
    else
      let flabel ← is_function_label line
      match flabel with
      | some (c :: cs) => do
        let (f, idx', rest') ← parse_function path (c :: cs) (idx + 1) rest
        let (fs, idx'', rest'') ← parse_code_section path fuel idx' rest'
        .ok (f :: fs, idx'', rest'')
      | _ => parse_code_section path fuel (idx + 1) rest

/-- `parse_const_section(fileit)`. -/
def parse_const_section (path : List Char) :
    Nat → Nat → List (List Char) → Except Unit (List PConst × Nat × List (List Char))
  | 0, _, _ => .error ()
  | _ + 1, idx, [] => .ok ([], idx, [])
  | fuel + 1, idx, line :: rest => do
    if otruthy (is_area line) then .ok ([], idx, line :: rest)
    else
      let clabel ← is_constant_label line
      match clabel with
      | some (c :: cs) => do
        let (k, idx', rest') ← parse_constant path (c :: cs) (idx + 1) rest
        let (ks, idx'', rest'') ← parse_const_section path fuel idx' rest'
        .ok (k :: ks, idx'', rest'')
      | _ => parse_const_section path fuel (idx + 1) rest

/-- The accumulated result of `parse(fileit)`: globals, interrupts,
constants, functions, in the source's return order. -/
structure ParseResult where
  globals : List GlobalDef
  interrupts : List IntDef
  constants : List PConst
  functions : List PFunc
deriving DecidableEq, Repr

/-- The top-level loop of `parse(fileit)`: records `.globl` and `int`
lines, dispatches `CODE` and `CONST` sections. -/
def parseTop (path : List Char) :
    Nat → Nat → List (List Char) → ParseResult → Except Unit ParseResult
  | 0, _, _, _ => .error ()
  | _ + 1, _, [], acc => .ok acc
  | fuel + 1, idx, line :: rest, acc =>
    if otruthy (is_global_defs line) then
      parseTop path fuel (idx + 1) rest
        { acc with globals :=
            acc.globals ++ [⟨path, (is_global_defs line).getD [], idx + 1⟩] }
    else if otruthy (is_int_def line) then
      parseTop path fuel (idx + 1) rest
        { acc with interrupts :=
            acc.interrupts ++ [⟨path, (is_int_def line).getD [], idx + 1⟩] }
    else if is_area line = some (("CODE").toList) then do
      let (fs, idx', rest') ← parse_code_section path fuel (idx + 1) rest
      parseTop path fuel idx' rest' { acc with functions := acc.functions ++ fs }
    else if is_area line = some (("CONST").toList) then do
      let (ks, idx', rest') ← parse_const_section path fuel (idx + 1) rest
      parseTop path fuel idx' rest' { acc with constants := acc.constants ++ ks }
    else parseTop path fuel (idx + 1) rest acc

/-- One input file of the sweep: its path and its lines. -/
structure AsmFile where
  path : List Char
  lines : List (List Char)
deriving DecidableEq, Repr

/-- `parse_file(file)`: run the top-level parser from position 0.  The
fuel `2 * lines + 2` exceeds the total number of loop iterations any
run can perform (every iteration of every loop consumes a line or
returns). -/
def parse_file (file : AsmFile) : Except Unit ParseResult :=
  parseTop file.path (2 * file.lines.length + 2) 0 file.lines ⟨[], [], [], []⟩

/-! ## Symbol resolution

Run over the union of the per-file collections.  Fatal errors
correspond to the source's `exit(1)` calls; `.crash` marks an uncaught
exception. -/

/-- The abnormal outcomes of a run: the source's `exit(1)` sites, an
uncaught exception, and exhaustion of the modelling fuel. -/
inductive Halt where
  /-- "Conflicting definitions for non-static function" -/
  | conflictingGlobalFun : Halt
  /-- "Multiple static definitions for function" -/
  | multipleStaticFun : Halt
  /-- "Conflicting definitions for global constant" -/
  | conflictingGlobalConst : Halt
  /-- "Error: Entry label not found" -/
  | entryNotFound : Halt
  /-- "Multiple definitions for entry label" -/
  | entryMultiple : Halt
  /-- "Multiple definitions for function" (file-qualified exclusion) -/
  | exclMultipleQualified : Halt
  /-- "Multiple possible definitions excluded for function" -/
  | exclMultipleBare : Halt
  /-- an uncaught Python exception (IndexError, ValueError) raised
  before the sweep begins -/
  | crash : Halt
  /-- an uncaught exception raised inside the file-rewrite loops (a
  TypeError from an unset end line, or an IndexError): files processed
  by earlier loop iterations may already have been rewritten in the
  source, a state this model does not track -/
  | sweepCrash : Halt
  /-- modelling fuel exhausted (the source recurses or loops further) -/
  | fuel : Halt
deriving DecidableEq, Repr

/-- `functions_by_name(functions, name)`, returning indices into the
global function list (Python returns the objects; identity is index). -/
def functions_by_name (funcs : List PFunc) (name : List Char) : List Nat :=
  ((funcs.enum.filter (fun p => p.2.name = name)).map (fun p => p.1))

/-- `constants_by_name(constants, name)` as indices. -/
def constants_by_name (consts : List PConst) (name : List Char) : List Nat :=
  ((consts.enum.filter (fun p => p.2.name = name)).map (fun p => p.1))

/-- `Function.resolve_globals` / `Constant.resolve_globals`: attach
every global whose name matches, in list order. -/
def resolve_globals (name : List Char) (globals : List GlobalDef) : List GlobalDef :=
  globals.filter (fun g => g.name = name)

/-- `Function.resolve_isr`: the loop overwrites `isr_def` on every
match, so the last matching interrupt definition survives. -/
def resolve_isr (name : List Char) (interrupts : List IntDef) : Option IntDef :=
  (interrupts.filter (fun i => i.name = name)).getLast?

/-- The static branch of `resolve_calls`: iterate over the candidates,
appending every one defined in the caller's file.  The `matched` flag
is threaded exactly as in the source, where no statement ever sets it
to `True`; the "Multiple static definitions" exit is therefore
unreachable. -/
def resolveStaticLoop (selfPath : List Char) (funcs : List PFunc)
    (matched : Bool) : List Nat → Except Halt (List Nat)
  | [] => .ok []
  | i :: is_ =>
    if (funcs.getD i (initFunc [] [] 0)).path = selfPath then
      if matched then .error .multipleStaticFun
      else do
        let rest ← resolveStaticLoop selfPath funcs matched is_
        .ok (i :: rest)
    else resolveStaticLoop selfPath funcs matched is_

/-- One iteration of `Function.resolve_calls` for a single call-target
name: global names must have a unique definition; otherwise the
same-file candidates are collected by `resolveStaticLoop`. -/
def resolveOneCall (funcs : List PFunc) (gds : List (List GlobalDef))
    (selfPath : List Char) (c : List Char) : Except Halt (List Nat) :=
  let cands := functions_by_name funcs c
  let glob := cands.any (fun i => !(gds.getD i []).isEmpty)
  if glob then
    if 1 < cands.length then .error .conflictingGlobalFun
    else .ok (cands.take 1)
  else resolveStaticLoop selfPath funcs false cands

/-- `Function.resolve_calls(functions)`: fold `resolveOneCall` over the
recorded call-target names, concatenating the appended targets. -/
def resolve_calls (funcs : List PFunc) (gds : List (List GlobalDef))
    (selfPath : List Char) : List (List Char) → Except Halt (List Nat)
  | [] => .ok []
  | c :: cs => do
    let here ← resolveOneCall funcs gds selfPath c
    let rest ← resolve_calls funcs gds selfPath cs
    .ok (here ++ rest)

/-- The static branch of `Function.resolve_constants`: unlike the
function case there is no duplicate check at all; every same-file
candidate is appended. -/
def resolveConstStatic (selfPath : List Char) (consts : List PConst) :
    List Nat → List Nat
  | [] => []
  | i :: is_ =>
    if (consts.getD i ⟨[], [], 0, none⟩).path = selfPath then
      i :: resolveConstStatic selfPath consts is_
    else resolveConstStatic selfPath consts is_

/-- One iteration of `Function.resolve_constants` for one load name. -/
def resolveOneConst (consts : List PConst) (cgds : List (List GlobalDef))
    (selfPath : List Char) (c : List Char) : Except Halt (List Nat) :=
  let cands := constants_by_name consts c
  let glob := cands.any (fun i => !(cgds.getD i []).isEmpty)
  if glob then
    if 1 < cands.length then .error .conflictingGlobalConst
    else .ok (cands.take 1)
  else .ok (resolveConstStatic selfPath consts cands)

/-- `Function.resolve_constants(constants)`. -/
def resolve_constants (consts : List PConst) (cgds : List (List GlobalDef))
    (selfPath : List Char) : List (List Char) → Except Halt (List Nat)
  | [] => .ok []
  | c :: cs => do
    let here ← resolveOneConst consts cgds selfPath c
    let rest ← resolve_constants consts cgds selfPath cs
    .ok (here ++ rest)

/-- `function_by_filename_name(functions, filename, name)`: match on
the final path component and the name; a second match is fatal. -/
def function_by_filename_name (funcs : List PFunc) (filename name : List Char) :
    Except Halt (Option Nat) :=
  goFbfn funcs.enum none
where
  /-- the loop over `functions`, threading the `ret` variable -/
  goFbfn : List (Nat × PFunc) → Option Nat → Except Halt (Option Nat)
    | [], ret => .ok ret
    | (i, f) :: fs, ret =>
      if (pySplit (['/']) f.path).getLastD [] = filename && f.name = name then
        if ret.isSome then .error .exclMultipleQualified
        else goFbfn fs (some i)
      else goFbfn fs ret

/-- `eval_flabel(flabel)`: split a `file:name` exclusion specifier.
`filename, name = flabel.split(":")` raises ValueError unless the split
has exactly two parts. -/
def eval_flabel (flabel : List Char) :
    Except Halt (Option (List Char) × List Char) :=
  if pyContains ([':']) flabel then
    match pySplit ([':']) flabel with
    | [fname, name] => .ok (some fname, name)
    | _ => .error .crash
  else .ok (none, flabel)

/-- `interrupt_handlers(functions)`: indices whose resolved `isr_def`
is set, in list order. -/
def interrupt_handlers (isrs : List (Option IntDef)) : List Nat :=
  ((isrs.enum.filter (fun p => p.2.isSome)).map (fun p => p.1))

/-! ## Reachability (`traverse_calls`)

The source recurses without depth bound and skips only direct
self-calls (`if call == top: continue`).  `fuel` is the recursion
depth still available; a `none` result means the run exceeds every
finite depth, i.e. the Python process dies with RecursionError. -/

/-- The loop `for call in top.calls` of `traverse_calls`: `res c` is
the recursive traversal of child `c` (with one stack frame consumed).
Direct self-calls are skipped; the results are concatenated in order. -/
def travSib (res : Nat → Option (List Nat)) (top : Nat) :
    List Nat → Option (List Nat)
  | [] => some []
  | c :: cs =>
    if c = top then travSib res top cs
    else
      match res c with
      | none => none
      | some sub =>
        match travSib res top cs with
        | none => none
        | some rest => some (c :: (sub ++ rest))

/-- `traverse_calls(functions, top)` with explicit recursion depth:
each nested Python call frame consumes one unit of fuel. -/
def traverse_calls (g : Nat → List Nat) : Nat → Nat → Option (List Nat)
  | 0, _ => none
  | fuel + 1, top => travSib (fun c => traverse_calls g fuel c) top (g top)

/-! ## The sweep (the file-rewrite loops at the end of `main`)

Every edit is a single-position overwrite `lines[q] = f(lines[q])` on
the 0-based line list; `none` models the IndexError raised when an
index is out of range.  Line numbers recorded by the parser are
1-based, hence the `p - 1` conversions at the call sites. -/

/-- The replacement text for a removed vector entry. -/
def nullVector : List Char := ("\tint 0x000000\n").toList

/-- `lines[q] = f(lines[q])` (0-based), `none` on IndexError. -/
def updAt (f : List Char → List Char) (lines : List (List Char)) (q : Nat) :
    Option (List (List Char)) :=
  match lines[q]? with
  | none => none
  | some l => some (lines.set q (f l))

/-- Apply `updAt f` at each position of `qs` in order. -/
def updAll (f : List Char → List Char) : List Nat → List (List Char) →
    Option (List (List Char))
  | [], lines => some lines
  | q :: qs, lines =>
    match updAt f lines q with
    | none => none
    | some l2 => updAll f qs l2

/-- `lines[p - 1] = ";" + lines[p - 1]` for each 1-based `p` in `ps`. -/
def commentLines (ps : List Nat) (lines : List (List Char)) :
    Option (List (List Char)) :=
  updAll (fun l => ';' :: l) (ps.map (fun p => p - 1)) lines

/-- `lines[p - 1] = "\tint 0x000000\n"` for each 1-based `p` in `ps`. -/
def nullIntLines (ps : List Nat) (lines : List (List Char)) :
    Option (List (List Char)) :=
  updAll (fun _ => nullVector) (ps.map (fun p => p - 1)) lines

/-- The 0-based positions of `range(start_line - 1, end_line)` for each
recorded `[start, end)` block. -/
def rangePositions (rs : List (Nat × Nat)) : List Nat :=
  (rs.map (fun r => List.range' (r.1 - 1) (r.2 - (r.1 - 1)))).flatten

/-- Comment out every line of each block. -/
def commentRanges (rs : List (Nat × Nat)) (lines : List (List Char)) :
    Option (List (List Char)) :=
  updAll (fun l => ';' :: l) (rangePositions rs) lines

/-- The complete rewrite one file undergoes, in source order.

Pass 1 (the `for file in filef` loop) runs only for files with dead
functions (`frs ≠ []`): comment the dead globals, null the dead vector
entries, comment the dead function and constant bodies.  After its
globals loop the source executes `fileg[file].remove(g)` with `g` still
bound to the last iterated global, and likewise `filei[file].remove(i)`
— so for such files the later loops see the lists minus their last
element.  Pass 2 (`for file in fileg`) comments the remaining dead
globals, pass 3 (`for file in filei`) nulls the remaining dead vector
entries, pass 4 (`for file in filec`) comments the dead constant bodies
again.  Loops over an absent dict key are modelled by the empty list. -/
def sweepFileTotal (gs is_ : List Nat) (frs crs : List (Nat × Nat))
    (lines : List (List Char)) : Option (List (List Char)) :=
  let pass1 :=
    if frs.isEmpty then some lines
    else
      (((commentLines gs lines).bind (nullIntLines is_)).bind
        (commentRanges frs)).bind (commentRanges crs)
  let g2 := if frs.isEmpty then gs else gs.dropLast
  let i2 := if frs.isEmpty then is_ else is_.dropLast
  ((pass1.bind (commentLines g2)).bind (nullIntLines i2)).bind (commentRanges crs)

/-! ## The `main` pipeline (after the CLI glue)

`mainModel` consumes the copied input set (an ordered list of files, in
the model standing for the `os.listdir` order), the entry name, the
exclusion specifiers (`args.exclude`, with `None` behaving as the empty
list) and the `--opt-irq` flag.  `tfuel` bounds the recursion depth of
`traverse_calls`.  All `exit(1)` sites and uncaught exceptions occur
before the first file is opened for writing in the source; the model
mirrors that order, so an abnormal outcome carries the untouched input
set. -/

/-- Parse every file, concatenating the four collections in file order. -/
def parseAll : List AsmFile → Except Halt ParseResult
  | [] => .ok ⟨[], [], [], []⟩
  | f :: fs => do
    match parse_file f with
    | .error _ => .error .crash
    | .ok r => do
      let rest ← parseAll fs
      .ok ⟨r.globals ++ rest.globals, r.interrupts ++ rest.interrupts,
           r.constants ++ rest.constants, r.functions ++ rest.functions⟩

/-- `mapM` for `Except Halt`, written out for easy unfolding. -/
def mapExcept {α β : Type} (f : α → Except Halt β) : List α → Except Halt (List β)
  | [] => .ok []
  | a :: as_ => do
    let b ← f a
    let bs ← mapExcept f as_
    .ok (b :: bs)

/-- The keep-loop over interrupt handlers: skipped when `--opt-irq` is
set and the handler body is empty, otherwise the handler and its
traversal are appended (with no membership check). -/
def keepHandlers (g : Nat → List Nat) (tfuel : Nat) (optIrq : Bool)
    (funcs : List PFunc) : List Nat → List Nat → Except Halt (List Nat)
  | keep, [] => .ok keep
  | keep, ih :: ihs =>
    if optIrq && (funcs.getD ih (initFunc [] [] 0)).empty then
      keepHandlers g tfuel optIrq funcs keep ihs
    else
      match traverse_calls g tfuel ih with
      | none => .error .fuel
      | some t => keepHandlers g tfuel optIrq funcs (keep ++ ih :: t) ihs

/-- The keep-loop over user exclusions.  A file-qualified name uses
`function_by_filename_name`; a bare name matching more than one
definition is fatal, and a bare name matching none reaches `f = f[0]`
on an empty list, an IndexError. -/
def keepExclusions (g : Nat → List Nat) (tfuel : Nat) (funcs : List PFunc) :
    List Nat → List (List Char) → Except Halt (List Nat)
  | keep, [] => .ok keep
  | keep, x :: xs => do
    let (fname?, nm) ← eval_flabel x
    let fOpt ←
      match fname? with
      | some (c :: cs) => function_by_filename_name funcs (c :: cs) nm
      | _ =>
        -- Python truthiness: a `None` or empty filename part selects
        -- the bare-name lookup
        let cands := functions_by_name funcs nm
        if 1 < cands.length then .error .exclMultipleBare
        else
          match cands with
          | [] => .error .crash
          | i :: _ => .ok (some i)
    match fOpt with
    | some i =>
      if i ∈ keep then keepExclusions g tfuel funcs keep xs
      else
        match traverse_calls g tfuel i with
        | none => .error .fuel
        | some t => keepExclusions g tfuel funcs (keep ++ i :: t) xs
    | none => keepExclusions g tfuel funcs keep xs

/-- Build the `[start_line - 1, end_line)` block of one dead definition;
`end_line = None` reaches `range(int, None)`, a TypeError. -/
def blockOf (start : Nat) : Option Nat → Except Halt (Nat × Nat)
  | none => .error .sweepCrash
  | some e => .ok (start, e)

/-- Rewrite every file: group the dead entities by path and apply
`sweepFileTotal`.  (The source iterates the four group dicts
separately; the per-file edit sequence is identical, and distinct files
are independent, so iterating the file list directly produces the same
final contents.) -/
def sweepAll (funcs : List PFunc) (consts : List PConst)
    (removeg : List GlobalDef) (removei : List IntDef)
    (removef removec : List Nat) : List AsmFile → Except Halt (List AsmFile)
  | [] => .ok []
  | file :: files => do
    let gHere := ((removeg.filter (fun g => g.path = file.path)).map (fun g => g.line))
    let iHere := ((removei.filter (fun i => i.path = file.path)).map (fun i => i.line))
    let fHere := removef.filter
      (fun i => (funcs.getD i (initFunc [] [] 0)).path = file.path)
    let cHere := removec.filter
      (fun i => (consts.getD i ⟨[], [], 0, none⟩).path = file.path)
    let frs ← mapExcept
      (fun i => let f := funcs.getD i (initFunc [] [] 0)
                blockOf f.start_line f.end_line) fHere
    let crs ← mapExcept
      (fun i => let c := consts.getD i ⟨[], [], 0, none⟩
                blockOf c.start_line c.end_line) cHere
    match sweepFileTotal gHere iHere frs crs file.lines with
    | none => .error .sweepCrash
    | some newLines => do
      let rest ← sweepAll funcs consts removeg removei removef removec files
      .ok (⟨file.path, newLines⟩ :: rest)

/-- The summary the source prints: removed functions, total functions,
removed constants, total constants. -/
structure Stats where
  removedFunctions : Nat
  totalFunctions : Nat
  removedConstants : Nat
  totalConstants : Nat
deriving DecidableEq, Repr

/-- The computational core of `main` after argument handling and file
copying: parse, resolve, reachability, sweep.  Returns the rewritten
files and the summary, or the abnormal outcome. -/
def mainCore (files : List AsmFile) (entry : List Char)
    (excludes : List (List Char)) (optIrq : Bool) (tfuel : Nat) :
    Except Halt (Stats × List AsmFile) := do
  let pr ← parseAll files
  let funcs := pr.functions
  let gds := funcs.map (fun f => resolve_globals f.name pr.globals)
  let isrs := funcs.map (fun f => resolve_isr f.name pr.interrupts)
  let callss ← mapExcept (fun f => resolve_calls funcs gds f.path f.calls_str) funcs
  let cgds := pr.constants.map (fun c => resolve_globals c.name pr.globals)
  let constss ← mapExcept
    (fun f => resolve_constants pr.constants cgds f.path f.mem_loads_str) funcs
  let g : Nat → List Nat := fun i => callss.getD i []
  let mainf ←
    match functions_by_name funcs entry with
    | [] => .error Halt.entryNotFound
    | [m] => .ok m
    | _ => .error Halt.entryMultiple
  let keep ←
    match traverse_calls g tfuel mainf with
    | none => .error Halt.fuel
    | some t => .ok (mainf :: t)
  let keep ← keepHandlers g tfuel optIrq funcs keep (interrupt_handlers isrs)
  let keep ← keepExclusions g tfuel funcs keep excludes
  let keep := keep.eraseDups
  let removef := (List.range funcs.length).filter (fun i => i ∉ keep)
  let removeg := ((removef.map (fun i => gds.getD i [])).flatten)
  let removei := removef.filterMap (fun i => isrs.getD i none)
  let removec := (List.range pr.constants.length).filter
    (fun c => !(keep.any (fun f => (constss.getD f []).contains c)))
  let removeg := removeg ++ ((removec.map (fun c => cgds.getD c [])).flatten)
  let newFiles ← sweepAll funcs pr.constants removeg removei removef removec files
  .ok (⟨removef.length, funcs.length, removec.length, pr.constants.length⟩, newFiles)

/-- `main` as observed from outside: the outcome together with the
final contents of the file set.  Every `exit(1)` and every uncaught
exception in the source occurs before any file is opened for writing,
so an abnormal outcome leaves the input files as they were. -/
def mainModel (files : List AsmFile) (entry : List Char)
    (excludes : List (List Char)) (optIrq : Bool) (tfuel : Nat) :
    Except Halt Stats × List AsmFile :=
  match mainCore files entry excludes optIrq tfuel with
  | .error h => (.error h, files)
  | .ok (st, newFiles) => (.ok st, newFiles)

/-! ## Concrete instances and spec-side definitions used by the theorems -/

/-- Three functions in one file: a caller and two same-named static
definitions of its call target. -/
def c5funcs : List PFunc :=
  [{ path := ("a.asm").toList, name := ("_main").toList,
     calls_str := [("_f").toList], mem_loads_str := [], start_line := 1,
     end_line := some 2, isr := false, empty := false },
   { path := ("a.asm").toList, name := ("_f").toList, calls_str := [],
     mem_loads_str := [], start_line := 3, end_line := some 4,
     isr := false, empty := false },
   { path := ("a.asm").toList, name := ("_f").toList, calls_str := [],
     mem_loads_str := [], start_line := 5, end_line := some 6,
     isr := false, empty := false }]

/-- Two functions that call each other: the cycle guard of the source
(`if call == top`) does not cover cycles of length two. -/
def mutualGraph : Nat → List Nat := fun i =>
  if i = 0 then [1] else if i = 1 then [0] else []

/-- Modelled from the amended claim: the scan of a function body seen
by the empty-flag logic.  A comment or an `iret` is ignored; a function
label or area directive terminates the body; any other line is the one
that clears the empty flag.  (The `error` arm mirrors a classifier
crash, in which case the parse returns no function at all.) -/
def specBodyHasCode : List (List Char) → Bool
  | [] => false
  | line :: rest =>
    if is_comment line then specBodyHasCode rest
    else if is_iret line then specBodyHasCode rest
    else
      match is_function_label line with
      | .error _ => false
      | .ok flabel =>
        if otruthy flabel || otruthy (is_area line) then false
        else true

/-- A line counts as a vector directive when `is_int_def` classifies it
(Python truthiness: a non-empty operand). -/
def isIntLine (l : List Char) : Bool :=
  otruthy (is_int_def l)

/-- Two files that both export and define `_shared` (the spec's
"Exported conflict" scenario), with the entry calling it. -/
def c2fileA : AsmFile :=
  ⟨("a.asm").toList,
   [(".globl _shared\n").toList, (".area CODE\n").toList,
    ("_main:\n").toList, ("\tcall _shared\n").toList,
    ("_shared:\n").toList, ("\tret\n").toList]⟩

/-- The second conflicting file. -/
def c2fileB : AsmFile :=
  ⟨("b.asm").toList,
   [(".globl _shared\n").toList, (".area CODE\n").toList,
    ("_shared:\n").toList, ("\tret\n").toList]⟩

/-- A single file defining only the entry function. -/
def c4file : AsmFile :=
  ⟨("m.asm").toList,
   [(".area CODE\n").toList, ("_main:\n").toList, ("\tret\n").toList]⟩

/-! # Theorems -/

/-! ## Monadic reduction helpers -/

/-- Bind on a raised exception propagates the exception. -/
theorem ebind_error {ε α β : Type} (e : ε) (k : α → Except ε β) :
    (Except.error e >>= k) = Except.error e :=
  rfl

/-- Bind on a successful result applies the continuation. -/
theorem ebind_ok {ε α β : Type} (a : α) (k : α → Except ε β) :
    (Except.ok a >>= k) = k a :=
  rfl

/-- Bind on `none` propagates `none`. -/
theorem obind_none {α β : Type} (k : α → Option β) :
    (Option.none.bind k) = none :=
  rfl

/-- Bind on `some` applies the continuation. -/
theorem obind_some {α β : Type} (a : α) (k : α → Option β) :
    ((some a).bind k) = k a :=
  rfl

/-! ## C10: totality of the line classifiers -/

/-- Claim C10 asserts every classifier returns a classification or none
on every input.  It fails: on the one-character line `":"` the label
classifier evaluates `sline[-2]` with no such character, and on the bare
line `"jp"` the call classifier evaluates `label[0]` of an empty
operand; both raise IndexError.  This theorem evaluates the embedded
classifiers at the two failing inputs. -/
theorem c10_classifiers_raise_index_error :
    is_function_label ((":").toList) = .error () ∧
    is_call (("jp").toList) = .error () :=
  ⟨rfl, rfl⟩

/-! ## C9: the label returned by `is_load_src_label` -/

/-- Any result of the trailing scan loop is the suffix starting at the
first alphanumeric-or-underscore character. -/
theorem firstIdentSuffix_head (s name : List Char)
    (h : firstIdentSuffix s = some name) :
    ∃ c cs, name = c :: cs ∧ (c.isAlphanum = true ∨ c = '_') := by
  induction s with
  | nil => simp [firstIdentSuffix] at h
  | cons c rest ih =>
    simp only [firstIdentSuffix] at h
    by_cases hc : (c.isAlphanum || c = '_') = true
    · rw [if_pos hc] at h
      refine ⟨c, rest, (Option.some.inj h).symm, ?_⟩
      simpa [Bool.or_eq_true, decide_eq_true_eq] using hc
    · rw [if_neg hc] at h
      exact ih h

/-- Claim C9 as written is false: the source strips leading characters
only until the first alphanumeric-or-underscore character and returns
the rest without any validity check, so the line `ld a, 1+2` yields the
name `1`, which does not start with a letter or underscore. -/
theorem c9_counterexample :
    is_load_src_label (("\tld a, 1+2\n").toList) = some (("1").toList) ∧
    ¬(('1').isAlpha = true ∨ '1' = '_') := by
  exact ⟨rfl, by decide⟩

/-- Claim C9 (amended): a name returned by `is_load_src_label` is
non-empty and its first character is alphanumeric or an underscore
(not necessarily a letter, and with no constraint on the remaining
characters). -/
theorem c9_load_label_first_char (line name : List Char)
    (h : is_load_src_label line = some name) :
    ∃ c cs, name = c :: cs ∧ (c.isAlphanum = true ∨ c = '_') := by
  simp only [is_load_src_label] at h
  split at h
  · exact absurd h (by simp)
  · split at h
    · exact absurd h (by simp)
    · split at h
      · exact absurd h (by simp)
      · exact firstIdentSuffix_head _ _ h

/-- Witness for C9 at a concrete SDCC-style load line. -/
theorem c9_load_label_first_char_witness :
    ∃ c cs, (("_tab").toList) = c :: cs ∧ (c.isAlphanum = true ∨ c = '_') :=
  c9_load_label_first_char (("\tldw x, #(_tab+0)\n").toList) (("_tab").toList) rfl

/-! ## C3: the end line of a parsed function -/

/-- Claim C3 asserts `end_line` is never left null.  It fails at
end-of-input: the parse loop breaks out of the `StopIteration` handler
without assigning `end_line`, leaving it `None`.  This theorem
evaluates `parse_function` on a function body that runs to end-of-input
(a file whose last function has no terminating label or section
directive): the result carries `end_line = none`.  A later sweep of
such a function evaluates `range(start_line - 1, None)` and dies with a
TypeError. -/
theorem c3_end_line_none_at_eof :
    parse_function (("main.asm").toList) (("_main").toList) 2
        [("\tret\n").toList] =
      .ok ({ path := ("main.asm").toList, name := ("_main").toList,
             calls_str := [], mem_loads_str := [], start_line := 2,
             end_line := none, isr := false, empty := false }, 3, []) :=
  rfl

/-! ## C5: resolution of file-local calls -/

/-- Claim C5 asserts that two file-local definitions of a called name
in the caller's own file raise the fatal "multiple static definitions"
error.  They do not: the source's `matched` guard is never set to
`True`, so the error is unreachable; both definitions are appended to
the resolved call list and the run continues.  First conjunct: the
concrete failing input resolves to both candidates.  Second conjunct:
the static resolution loop, entered with `matched = False` as in the
source, succeeds on every input. -/
theorem c5_multiple_static_not_fatal :
    resolve_calls c5funcs [[], [], []] (("a.asm").toList) [("_f").toList] =
      .ok [1, 2] ∧
    ∀ (selfPath : List Char) (funcs : List PFunc) (cands : List Nat),
      ∃ r, resolveStaticLoop selfPath funcs false cands = .ok r := by
  constructor
  · rfl
  · intro selfPath funcs cands
    induction cands with
    | nil => exact ⟨[], rfl⟩
    | cons i is_ ih =>
      obtain ⟨r, hr⟩ := ih
      by_cases hp : (funcs.getD i (initFunc [] [] 0)).path = selfPath
      · refine ⟨i :: r, ?_⟩
        simp only [resolveStaticLoop, if_pos hp]
        rw [hr]
        rfl
      · exact ⟨r, by simp only [resolveStaticLoop, if_neg hp]; exact hr⟩

/-! ## C1: termination of `traverse_calls` -/

/-- The traversal over the two-cycle fails for every recursion depth,
from either node. -/
theorem traverse_mutual_none (fuel : Nat) :
    traverse_calls mutualGraph fuel 0 = none ∧
    traverse_calls mutualGraph fuel 1 = none := by
  induction fuel with
  | zero => exact ⟨rfl, rfl⟩
  | succ n ih =>
    refine ⟨?_, ?_⟩
    · simp [traverse_calls, travSib, mutualGraph, ih.2]
    · simp [traverse_calls, travSib, mutualGraph, ih.1]

/-- Claim C1 asserts the traversal terminates on every resolved call
graph, including a cycle of two functions that call each other.  It
does not: on the two-node mutual recursion graph the traversal exceeds
every finite recursion depth (`none` for every fuel), i.e. the source
recurses until Python's RecursionError kills the run.  The guard
`if call == top` skips only direct self-calls. -/
theorem c1_mutual_recursion_diverges (fuel : Nat) :
    traverse_calls mutualGraph fuel 0 = none :=
  (traverse_mutual_none fuel).1

/-! ## C6: the empty flag of a parsed function -/

/-- The empty flag computed by the parse loop: the initial flag wedged
with the absence of a non-ignored body line. -/
theorem pfLoop_empty_eq (rest : List (List Char)) :
    ∀ (idx : Nat) (f : PFunc) (out : PFunc × Nat × List (List Char)),
      pfLoop idx rest f = .ok out →
      out.1.empty = (f.empty && !specBodyHasCode rest) := by
  induction rest with
  | nil =>
    intro idx f out h
    simp only [pfLoop] at h
    injection h with h'
    subst h'
    simp [specBodyHasCode]
  | cons line rest' ih =>
    intro idx f out h
    simp only [pfLoop] at h
    by_cases h1 : is_comment line
    · rw [if_pos h1] at h
      rw [ih _ _ _ h]
      simp [specBodyHasCode, h1]
    · rw [if_neg h1] at h
      by_cases h2 : is_iret line
      · rw [if_pos h2] at h
        rw [ih _ _ _ h]
        simp [specBodyHasCode, h1, h2]
      · rw [if_neg h2] at h
        cases hfl : is_function_label line with
        | error e =>
          rw [hfl, ebind_error] at h
          exact Except.noConfusion h
        | ok flabel =>
          rw [hfl, ebind_ok] at h
          by_cases h3 : (otruthy flabel || otruthy (is_area line)) = true
          · rw [if_pos h3] at h
            injection h with h'
            subst h'
            simp [specBodyHasCode, h1, h2, hfl, h3]
          · rw [if_neg h3] at h
            have hspec : specBodyHasCode (line :: rest') = true := by
              simp only [specBodyHasCode]
              rw [if_neg h1, if_neg h2, hfl]
              simp [h3]
            rw [hspec]
            cases hc : is_call line with
            | error e =>
              rw [hc, ebind_error] at h
              exact Except.noConfusion h
            | ok call =>
              rw [hc, ebind_ok] at h
              by_cases h4 :
                  (otruthy call && !(f.calls_str.contains (call.getD []))) = true
              · rw [if_pos h4] at h
                rw [ih _ _ _ h]
                simp
              · rw [if_neg h4] at h
                by_cases h5 : (otruthy (is_load_src_label line) &&
                    !(f.mem_loads_str.contains
                      ((is_load_src_label line).getD []))) = true
                · rw [if_pos h5] at h
                  rw [ih _ _ _ h]
                  simp
                · rw [if_neg h5] at h
                  rw [ih _ _ _ h]
                  simp

/-- Claim C6 as written is false: the `iret` branch of the parse loop
executes `continue` before the statement that clears the empty flag, so
a handler whose body is a single interrupt-return instruction — an
executable instruction — is still flagged empty (`empty = True`,
`isr = True`).  (The `--opt-irq` feature relies on exactly this: an
unused handler containing only `iret` counts as empty and is removed.) -/
theorem c6_counterexample :
    parse_function (("m.asm").toList) (("_irq").toList) 2
        [("\tiret\n").toList, ("_next:\n").toList] =
      .ok ({ path := ("m.asm").toList, name := ("_irq").toList,
             calls_str := [], mem_loads_str := [], start_line := 2,
             end_line := some 3, isr := true, empty := true }, 3,
           [("_next:\n").toList]) :=
  rfl

/-- Claim C6 (amended): the is-empty flag is true iff the body contains
no line other than comments and interrupt-return instructions before
the terminator; `iret` lines are ignored by the emptiness check, so an
iret-only handler is empty. -/
theorem c6_empty_flag (path label : List Char) (idx : Nat)
    (rest : List (List Char)) (out : PFunc × Nat × List (List Char))
    (h : parse_function path label idx rest = .ok out) :
    out.1.empty = !specBodyHasCode rest := by
  have := pfLoop_empty_eq rest idx (initFunc path label idx) out h
  simpa [initFunc] using this

/-! ## Helper lemmas about in-place line edits -/

/-- A single in-place overwrite preserves the number of lines. -/
theorem updAt_length (f : List Char → List Char) (lines out : List (List Char))
    (q : Nat) (h : updAt f lines q = some out) : out.length = lines.length := by
  unfold updAt at h
  cases hq : lines[q]? with
  | none => rw [hq] at h; exact Option.noConfusion h
  | some l =>
    rw [hq] at h
    injection h with h'
    rw [← h']
    exact List.length_set lines q (f l)

/-- A sequence of in-place overwrites preserves the number of lines. -/
theorem updAll_length (f : List Char → List Char) (qs : List Nat) :
    ∀ (lines out : List (List Char)), updAll f qs lines = some out →
      out.length = lines.length := by
  induction qs with
  | nil =>
    intro lines out h
    simp only [updAll] at h
    injection h with h'
    rw [h']
  | cons q qs ih =>
    intro lines out h
    simp only [updAll] at h
    cases hq : updAt f lines q with
    | none => rw [hq] at h; exact Option.noConfusion h
    | some l2 =>
      rw [hq] at h
      rw [ih l2 out h, updAt_length f lines l2 q hq]

/-- Positions not in the edit list keep their contents. -/
theorem updAll_untouched (f : List Char → List Char) (qs : List Nat) :
    ∀ (lines out : List (List Char)) (q : Nat), updAll f qs lines = some out →
      q ∉ qs → out[q]? = lines[q]? := by
  induction qs with
  | nil =>
    intro lines out q h _
    simp only [updAll] at h
    injection h with h'
    rw [h']
  | cons p ps ih =>
    intro lines out q h hq
    simp only [updAll] at h
    cases hp : updAt f lines p with
    | none => rw [hp] at h; exact Option.noConfusion h
    | some l2 =>
      rw [hp] at h
      have hqp : q ≠ p := fun hqe => hq (hqe ▸ List.mem_cons_self p ps)
      rw [ih l2 out q h (fun hmem => hq (List.mem_cons_of_mem p hmem))]
      unfold updAt at hp
      cases hpp : lines[p]? with
      | none => rw [hpp] at hp; exact Option.noConfusion hp
      | some lp =>
        rw [hpp] at hp
        injection hp with hp'
        rw [← hp']
        exact List.getElem?_set_ne (Ne.symm hqp)

/-- After overwriting every listed position with the fixed value `v`,
each listed position holds `v`. -/
theorem updAll_const_value (v : List Char) (qs : List Nat) :
    ∀ (lines out : List (List Char)) (q : Nat),
      updAll (fun _ => v) qs lines = some out → q ∈ qs →
      out[q]? = some v := by
  induction qs with
  | nil => intro lines out q _ hq; exact absurd hq (List.not_mem_nil q)
  | cons p ps ih =>
    intro lines out q h hq
    simp only [updAll] at h
    cases hp : updAt (fun _ => v) lines p with
    | none => rw [hp] at h; exact Option.noConfusion h
    | some l2 =>
      rw [hp] at h
      by_cases hmem : q ∈ ps
      · exact ih l2 out q h hmem
      · have hqp : q = p := by
          rcases List.mem_cons.mp hq with h' | h'
          · exact h'
          · exact absurd h' hmem
        subst hqp
        rw [updAll_untouched (fun _ => v) ps l2 out q h hmem]
        unfold updAt at hp
        cases hpp : lines[q]? with
        | none => rw [hpp] at hp; exact Option.noConfusion hp
        | some lp =>
          rw [hpp] at hp
          injection hp with hp'
          rw [← hp']
          obtain ⟨hlt, _⟩ := List.getElem?_eq_some.mp hpp
          exact List.getElem?_set_self hlt

/-- After a commenting pass, each position holds either its old
contents or a line starting with a semicolon. -/
theorem updAll_comment_shape (qs : List Nat) :
    ∀ (lines out : List (List Char)) (q : Nat),
      updAll (fun l => ';' :: l) qs lines = some out →
      out[q]? = lines[q]? ∨ ∃ t, out[q]? = some (';' :: t) := by
  induction qs with
  | nil =>
    intro lines out q h
    simp only [updAll] at h
    injection h with h'
    rw [h']
    exact Or.inl rfl
  | cons p ps ih =>
    intro lines out q h
    simp only [updAll] at h
    cases hp : updAt (fun l => ';' :: l) lines p with
    | none => rw [hp] at h; exact Option.noConfusion h
    | some l2 =>
      rw [hp] at h
      rcases ih l2 out q h with h2 | h2
      · rw [h2]
        unfold updAt at hp
        cases hpp : lines[p]? with
        | none => rw [hpp] at hp; exact Option.noConfusion hp
        | some lp =>
          rw [hpp] at hp
          injection hp with hp'
          rw [← hp']
          by_cases hqp : p = q
          · subst hqp
            obtain ⟨hlt, _⟩ := List.getElem?_eq_some.mp hpp
            rw [List.getElem?_set_self hlt]
            exact Or.inr ⟨lp, rfl⟩
          · rw [List.getElem?_set_ne hqp]
            exact Or.inl rfl
      · exact Or.inr h2

/-! ## C8: line-count invariance of the sweep -/

/-- Claim C8: every edit of the sweep overwrites an existing line in
place, so a file that the sweeper successfully rewrites has exactly as
many lines afterwards as before, for any collection of dead globals,
dead vector entries and dead function or constant blocks. -/
theorem c8_line_count_invariant (gs is_ : List Nat) (frs crs : List (Nat × Nat))
    (lines out : List (List Char))
    (h : sweepFileTotal gs is_ frs crs lines = some out) :
    out.length = lines.length := by
  simp only [sweepFileTotal] at h
  rcases Option.bind_eq_some.mp h with ⟨l3, h3, hout⟩
  rcases Option.bind_eq_some.mp h3 with ⟨l2, h2, h23⟩
  rcases Option.bind_eq_some.mp h2 with ⟨l1, h1, h12⟩
  simp only [commentLines, nullIntLines, commentRanges] at h12 h23 hout
  have e4 := updAll_length _ _ _ _ hout
  have e3 := updAll_length _ _ _ _ h23
  have e2 := updAll_length _ _ _ _ h12
  by_cases hfr : frs.isEmpty
  · rw [if_pos hfr] at h1
    injection h1 with h1'
    rw [e4, e3, e2, ← h1']
  · rw [if_neg hfr] at h1
    rcases Option.bind_eq_some.mp h1 with ⟨a3, ha3, ha4⟩
    rcases Option.bind_eq_some.mp ha3 with ⟨a2, ha2, ha23⟩
    rcases Option.bind_eq_some.mp ha2 with ⟨a1, ha1, ha12⟩
    simp only [commentLines, nullIntLines, commentRanges] at ha1 ha12 ha23 ha4
    have f4 := updAll_length _ _ _ _ ha4
    have f3 := updAll_length _ _ _ _ ha23
    have f2 := updAll_length _ _ _ _ ha12
    have f1 := updAll_length _ _ _ _ ha1
    rw [e4, e3, e2, f4, f3, f2, f1]

/-! ## C7: vector-slot preservation -/

/-- The null-vector replacement text is itself a vector directive. -/
theorem isIntLine_nullVector : isIntLine nullVector = true :=
  rfl

/-- Dropping trailing whitespace keeps a trailing non-whitespace
character. -/
theorem dropWhile_append_semicolon (xs : List Char) :
    ∃ ys, List.dropWhile pySpace (xs ++ [';']) = ys ++ [';'] := by
  induction xs with
  | nil => exact ⟨[], by decide⟩
  | cons x xs ih =>
    by_cases hx : pySpace x = true
    · obtain ⟨ys, hys⟩ := ih
      exact ⟨ys, by simp [List.dropWhile_cons, hx, hys]⟩
    · exact ⟨x :: xs, by simp [List.dropWhile_cons, hx]⟩

/-- Stripping a line that starts with a semicolon keeps the leading
semicolon. -/
theorem pyStrip_semicolon (l : List Char) :
    ∃ t, pyStrip (';' :: l) = ';' :: t := by
  obtain ⟨ys, hys⟩ := dropWhile_append_semicolon l.reverse
  refine ⟨ys.reverse, ?_⟩
  simp only [pyStrip]
  have hsp : pySpace ';' = false := rfl
  rw [List.dropWhile_cons, hsp]
  simp only [Bool.false_eq_true, if_false, List.reverse_cons, hys,
    List.reverse_append, List.reverse_cons, List.reverse_nil, List.nil_append]
  rfl

/-- Splitting on the comment character cuts everything from a leading
semicolon. -/
theorem remove_comments_semicolon (t : List Char) :
    remove_comments (';' :: t) = [] := by
  simp only [remove_comments, pySplit, List.length_cons]
  rw [pySplitFuel]
  have h : splitOnce ([';']) (';' :: t) = some ([], t) := by
    simp [splitOnce, List.isPrefixOf]
  rw [h]
  rfl

/-- A commented-out line is never a vector directive. -/
theorem isIntLine_comment (l : List Char) : isIntLine (';' :: l) = false := by
  obtain ⟨t, ht⟩ := pyStrip_semicolon l
  have hrc : remove_comments (pyStrip (';' :: l)) = [] := by
    rw [ht]; exact remove_comments_semicolon t
  simp only [isIntLine, is_int_def, hrc]
  rfl

/-- A commenting pass cannot produce the value observed at a position
that still holds a vector directive. -/
theorem comment_step_propagate (qs : List Nat) (cur next : List (List Char))
    (q : Nat) (l' : List Char)
    (h : updAll (fun l => ';' :: l) qs cur = some next)
    (hval : next[q]? = some l') (hint : isIntLine l' = true) :
    cur[q]? = some l' := by
  rcases updAll_comment_shape qs cur next q h with h2 | ⟨t, ht⟩
  · rw [← h2]; exact hval
  · rw [hval] at ht
    injection ht with ht'
    rw [ht'] at hint
    rw [isIntLine_comment] at hint
    exact absurd hint (by simp)

/-- A nulling pass either leaves a position alone or the position is a
listed vector slot. -/
theorem null_step_propagate (ps : List Nat) (cur next : List (List Char))
    (q : Nat) (l' : List Char)
    (h : updAll (fun _ => nullVector) (ps.map (fun x => x - 1)) cur = some next)
    (hval : next[q]? = some l') :
    cur[q]? = some l' ∨ q ∈ ps.map (fun x => x - 1) := by
  by_cases hm : q ∈ ps.map (fun x => x - 1)
  · exact Or.inr hm
  · left
    rw [← updAll_untouched _ _ cur next q h hm]
    exact hval

/-- Converting 1-based line numbers to 0-based positions is injective
on positive numbers. -/
theorem sub_one_not_mem_map {p : Nat} {ps : List Nat} (hp : 1 ≤ p)
    (hall : ∀ x ∈ ps, 1 ≤ x) (h : p ∉ ps) :
    p - 1 ∉ ps.map (fun x => x - 1) := by
  intro hmem
  rcases List.mem_map.mp hmem with ⟨x, hx, hxe⟩
  have hx1 := hall x hx
  have : x = p := by omega
  exact h (this ▸ hx)

/-- Claim C7: for an interrupt vector table whose entries are exactly
the vector-directive lines of the file (dead slots `is_`, kept slots
`ks`, both with valid 1-based line numbers), where — as the parser
guarantees by construction — no commented-out global line or dead
function/constant block overlaps a table line, the swept file holds a
vector-directive line at exactly the original positions: each dead
slot reads the null vector `int 0x000000`, each kept slot is unchanged
character for character, and a position holds a vector directive after
the sweep iff it did before. -/
theorem c7_vector_slot_preservation
    (lines out : List (List Char)) (gs is_ ks : List Nat)
    (frs crs : List (Nat × Nat))
    (hrun : sweepFileTotal gs is_ frs crs lines = some out)
    (hIpos : ∀ p ∈ is_, 1 ≤ p)
    (hIint : ∀ p ∈ is_, ∃ l, lines[p - 1]? = some l ∧ isIntLine l = true)
    (hKpos : ∀ p ∈ ks, 1 ≤ p)
    (hcover : ∀ q, q < lines.length → ∀ l, lines[q]? = some l →
      isIntLine l = true → (q + 1) ∈ is_ ∨ (q + 1) ∈ ks)
    (hIdisj : ∀ p ∈ is_, p - 1 ∉ gs.map (fun x => x - 1) ∧
      p - 1 ∉ rangePositions frs ∧ p - 1 ∉ rangePositions crs)
    (hKdisj : ∀ p ∈ ks, p ∉ is_ ∧ p - 1 ∉ gs.map (fun x => x - 1) ∧
      p - 1 ∉ rangePositions frs ∧ p - 1 ∉ rangePositions crs) :
    (∀ p ∈ is_, out[p - 1]? = some nullVector) ∧
    (∀ p ∈ ks, out[p - 1]? = lines[p - 1]?) ∧
    (∀ q : Nat, (∃ l, out[q]? = some l ∧ isIntLine l = true) ↔
          (∃ l, lines[q]? = some l ∧ isIntLine l = true)) := by
  simp only [sweepFileTotal] at hrun
  by_cases hfr : frs.isEmpty = true
  · simp only [if_pos hfr] at hrun
    rcases Option.bind_eq_some.mp hrun with ⟨l3, h3, hC⟩
    rcases Option.bind_eq_some.mp h3 with ⟨l2, h2, hB⟩
    rcases Option.bind_eq_some.mp h2 with ⟨l1, h1, hA⟩
    injection h1 with h1'
    subst h1'
    simp only [commentLines, nullIntLines, commentRanges] at hA hB hC
    have concl1 : ∀ p ∈ is_, out[p - 1]? = some nullVector := by
      intro p hp
      have hq3 : l3[p - 1]? = some nullVector :=
        updAll_const_value nullVector (is_.map (fun x => x - 1)) l2 l3
          (p - 1) hB (List.mem_map_of_mem _ hp)
      rw [updAll_untouched _ _ l3 out (p - 1) hC (hIdisj p hp).2.2, hq3]
    have concl2 : ∀ p ∈ ks, out[p - 1]? = lines[p - 1]? := by
      intro p hp
      obtain ⟨hnotI, hng, _, hnc⟩ := hKdisj p hp
      have hnI : p - 1 ∉ is_.map (fun x => x - 1) :=
        sub_one_not_mem_map (hKpos p hp) hIpos hnotI
      rw [updAll_untouched _ _ l3 out _ hC hnc,
          updAll_untouched _ _ l2 l3 _ hB hnI,
          updAll_untouched _ _ lines l2 _ hA hng]
    refine ⟨concl1, concl2, fun q => ⟨?_, ?_⟩⟩
    · rintro ⟨l', hval, hint⟩
      have s1 := comment_step_propagate _ l3 out q l' hC hval hint
      rcases null_step_propagate is_ l2 l3 q l' hB s1 with s2 | smem
      · exact ⟨l', comment_step_propagate _ lines l2 q l' hA s2 hint, hint⟩
      · rcases List.mem_map.mp smem with ⟨p, hp, hpe⟩
        obtain ⟨l0, hl0, hl0i⟩ := hIint p hp
        exact ⟨l0, hpe ▸ hl0, hl0i⟩
    · rintro ⟨l0, hval, hint⟩
      obtain ⟨hlt, _⟩ := List.getElem?_eq_some.mp hval
      rcases hcover q hlt l0 hval hint with hin | hin
      · have h := concl1 (q + 1) hin
        simp only [Nat.add_sub_cancel] at h
        exact ⟨nullVector, h, isIntLine_nullVector⟩
      · have h := concl2 (q + 1) hin
        simp only [Nat.add_sub_cancel] at h
        exact ⟨l0, h.trans hval, hint⟩
  · simp only [if_neg hfr] at hrun
    rcases Option.bind_eq_some.mp hrun with ⟨l3, h3, hA7⟩
    rcases Option.bind_eq_some.mp h3 with ⟨l2, h2, hA6⟩
    rcases Option.bind_eq_some.mp h2 with ⟨l1, h1, hA5⟩
    rcases Option.bind_eq_some.mp h1 with ⟨a3, ha3, hA4⟩
    rcases Option.bind_eq_some.mp ha3 with ⟨a2, ha2, hA3⟩
    rcases Option.bind_eq_some.mp ha2 with ⟨a1, ha1, hA2⟩
    simp only [commentLines, nullIntLines, commentRanges] at ha1 hA2 hA3 hA4 hA5 hA6 hA7
    have hsubI : ∀ r, r ∈ is_.dropLast.map (fun x => x - 1) →
        r ∈ is_.map (fun x => x - 1) :=
      fun r hr => List.map_subset _ (List.dropLast_subset is_) hr
    have hsubG : ∀ r, r ∈ gs.dropLast.map (fun x => x - 1) →
        r ∈ gs.map (fun x => x - 1) :=
      fun r hr => List.map_subset _ (List.dropLast_subset gs) hr
    have concl1 : ∀ p ∈ is_, out[p - 1]? = some nullVector := by
      intro p hp
      obtain ⟨hng, hnf, hnc⟩ := hIdisj p hp
      have v1 : a1[p - 1]? = lines[p - 1]? :=
        updAll_untouched _ _ lines a1 _ ha1 hng
      have v2 : a2[p - 1]? = some nullVector :=
        updAll_const_value nullVector _ a1 a2 _ hA2 (List.mem_map_of_mem _ hp)
      have v3 : a3[p - 1]? = some nullVector := by
        rw [updAll_untouched _ _ a2 a3 _ hA3 hnf, v2]
      have v4 : l1[p - 1]? = some nullVector := by
        rw [updAll_untouched _ _ a3 l1 _ hA4 hnc, v3]
      have v5 : l2[p - 1]? = some nullVector := by
        rw [updAll_untouched _ _ l1 l2 _ hA5 (fun hm => hng (hsubG _ hm)), v4]
      have v6 : l3[p - 1]? = some nullVector := by
        by_cases hm : p - 1 ∈ is_.dropLast.map (fun x => x - 1)
        · exact updAll_const_value nullVector _ l2 l3 _ hA6 hm
        · rw [updAll_untouched _ _ l2 l3 _ hA6 hm, v5]
      rw [updAll_untouched _ _ l3 out _ hA7 hnc, v6]
    have concl2 : ∀ p ∈ ks, out[p - 1]? = lines[p - 1]? := by
      intro p hp
      obtain ⟨hnotI, hng, hnf, hnc⟩ := hKdisj p hp
      have hnI : p - 1 ∉ is_.map (fun x => x - 1) :=
        sub_one_not_mem_map (hKpos p hp) hIpos hnotI
      rw [updAll_untouched _ _ l3 out _ hA7 hnc,
          updAll_untouched _ _ l2 l3 _ hA6 (fun hm => hnI (hsubI _ hm)),
          updAll_untouched _ _ l1 l2 _ hA5 (fun hm => hng (hsubG _ hm)),
          updAll_untouched _ _ a3 l1 _ hA4 hnc,
          updAll_untouched _ _ a2 a3 _ hA3 hnf,
          updAll_untouched _ _ a1 a2 _ hA2 hnI,
          updAll_untouched _ _ lines a1 _ ha1 hng]
    refine ⟨concl1, concl2, fun q => ⟨?_, ?_⟩⟩
    · rintro ⟨l', hval, hint⟩
      have s7 := comment_step_propagate _ l3 out q l' hA7 hval hint
      rcases null_step_propagate is_.dropLast l2 l3 q l' hA6 s7 with s6 | smem
      · have s5 := comment_step_propagate _ l1 l2 q l' hA5 s6 hint
        have s4 := comment_step_propagate _ a3 l1 q l' hA4 s5 hint
        have s3 := comment_step_propagate _ a2 a3 q l' hA3 s4 hint
        rcases null_step_propagate is_ a1 a2 q l' hA2 s3 with s2 | smem2
        · exact ⟨l', comment_step_propagate _ lines a1 q l' ha1 s2 hint, hint⟩
        · rcases List.mem_map.mp smem2 with ⟨p, hp, hpe⟩
          obtain ⟨l0, hl0, hl0i⟩ := hIint p hp
          exact ⟨l0, hpe ▸ hl0, hl0i⟩
      · rcases List.mem_map.mp (hsubI _ smem) with ⟨p, hp, hpe⟩
        obtain ⟨l0, hl0, hl0i⟩ := hIint p hp
        exact ⟨l0, hpe ▸ hl0, hl0i⟩
    · rintro ⟨l0, hval, hint⟩
      obtain ⟨hlt, _⟩ := List.getElem?_eq_some.mp hval
      rcases hcover q hlt l0 hval hint with hin | hin
      · have h := concl1 (q + 1) hin
        simp only [Nat.add_sub_cancel] at h
        exact ⟨nullVector, h, isIntLine_nullVector⟩
      · have h := concl2 (q + 1) hin
        simp only [Nat.add_sub_cancel] at h
        exact ⟨l0, h.trans hval, hint⟩

/-- Witness for C7: a three-line file whose vector table is lines 1
(kept) and 2 (dead); after the sweep the dead slot reads the null
vector caller, the kept slot is unchanged, and vector directives sit at
exactly the original positions. -/
theorem c7_vector_slot_preservation_witness :
    (∀ p ∈ [2], ([("\tint _h1\n").toList, nullVector,
        (".area CODE\n").toList] : List (List Char))[p - 1]? =
        some nullVector) ∧
    (∀ p ∈ [1], ([("\tint _h1\n").toList, nullVector,
        (".area CODE\n").toList] : List (List Char))[p - 1]? =
        ([("\tint _h1\n").toList, ("\tint _h2\n").toList,
          (".area CODE\n").toList] : List (List Char))[p - 1]?) ∧
    (∀ q : Nat,
      (∃ l, ([("\tint _h1\n").toList, nullVector,
          (".area CODE\n").toList] : List (List Char))[q]? = some l ∧
          isIntLine l = true) ↔
      (∃ l, ([("\tint _h1\n").toList, ("\tint _h2\n").toList,
          (".area CODE\n").toList] : List (List Char))[q]? = some l ∧
          isIntLine l = true)) :=
  c7_vector_slot_preservation
    [("\tint _h1\n").toList, ("\tint _h2\n").toList, (".area CODE\n").toList]
    [("\tint _h1\n").toList, nullVector, (".area CODE\n").toList]
    [] [2] [1] [] [] rfl (by decide)
    (by
      intro p hp
      rw [List.mem_singleton] at hp
      subst hp
      exact ⟨("\tint _h2\n").toList, rfl, rfl⟩)
    (by decide)
    (by
      intro q hq l hl hint
      have hq3 : q < 3 := by simpa using hq
      clear hq
      interval_cases q
      · right; decide
      · left; decide
      · injection hl with h'
        rw [← h'] at hint
        exact absurd hint (by decide))
    (by decide) (by decide)

/-- Witness for C8: a two-line file with a commented-out global line
and a nulled vector line keeps its two lines. -/
theorem c8_line_count_invariant_witness :
    ([';' :: (("\t.globl _f\n").toList), nullVector] : List (List Char)).length =
      ([("\t.globl _f\n").toList, ("\tint _f\n").toList] : List (List Char)).length :=
  c8_line_count_invariant [1] [2] [] []
    [("\t.globl _f\n").toList, ("\tint _f\n").toList]
    [';' :: (("\t.globl _f\n").toList), nullVector] rfl

/-! ## C2: no file is rewritten once a fatal condition is raised -/

/-- Claim C2: every `exit(1)` site — linkage ambiguity (functions and
constants), entry not found, entry ambiguous, exclusion ambiguity
(bare and file-qualified) — and every pre-sweep exception occurs in
`main` before the first file is opened for writing, so such an outcome
leaves every input file exactly as it was.  The single abort outcome
excluded is `sweepCrash`, an exception raised inside the rewrite loops
themselves (reachable only through the unset-end-line defect recorded
under claim C3), after which the source may have already rewritten
files handled by earlier loop iterations. -/
theorem c2_no_rewrite_on_fatal (files : List AsmFile) (entry : List Char)
    (excludes : List (List Char)) (optIrq : Bool) (tfuel : Nat) (h : Halt)
    (hfail : (mainModel files entry excludes optIrq tfuel).1 = .error h)
    (_hpre : h ≠ Halt.sweepCrash) :
    (mainModel files entry excludes optIrq tfuel).2 = files := by
  unfold mainModel at hfail ⊢
  cases hc : mainCore files entry excludes optIrq tfuel with
  | error h' => rfl
  | ok p =>
    obtain ⟨st, nf⟩ := p
    rw [hc] at hfail
    exact Except.noConfusion hfail

/-- Witness for C2: resolving the conflicting exported `_shared` raises
the linkage-ambiguity error and both input files come through the run
unmodified. -/
theorem c2_no_rewrite_on_fatal_witness :
    (mainModel [c2fileA, c2fileB] (("_main").toList) [] false 100).1 =
      .error Halt.conflictingGlobalFun ∧
    (mainModel [c2fileA, c2fileB] (("_main").toList) [] false 100).2 =
      [c2fileA, c2fileB] :=
  ⟨rfl, c2_no_rewrite_on_fatal [c2fileA, c2fileB] (("_main").toList) [] false 100
    Halt.conflictingGlobalFun rfl (by decide)⟩

/-! ## C4: exclusions that match no function -/

/-- Claim C4 asserts an exclusion name matching no function is silently
ignored.  For a file-qualified exclusion that is what happens (second
conjunct: the run completes normally).  For a bare exclusion name with
no match, however, `functions_by_name` returns the empty list and the
source immediately evaluates `f = f[0]`, an IndexError that kills the
run (first conjunct: the model crashes, leaving the file untouched). -/
theorem c4_missing_bare_exclusion_crashes :
    mainModel [c4file] (("_main").toList) [("_nope").toList] false 100 =
      (.error Halt.crash, [c4file]) ∧
    (mainModel [c4file] (("_main").toList) [("x.asm:_nope").toList] false 100).1 =
      .ok ⟨0, 1, 0, 0⟩ :=
  ⟨rfl, rfl⟩

/-- Witness for C6 at the iret-only handler body. -/
theorem c6_empty_flag_witness :
    (({ path := ("m.asm").toList, name := ("_irq").toList,
        calls_str := [], mem_loads_str := [], start_line := 2,
        end_line := some 3, isr := true, empty := true } : PFunc), 3,
      [("_next:\n").toList]).1.empty =
      !specBodyHasCode [("\tiret\n").toList, ("_next:\n").toList] :=
  c6_empty_flag (("m.asm").toList) (("_irq").toList) 2
    [("\tiret\n").toList, ("_next:\n").toList] _ rfl

end Stm8dce
